import Mathlib

/-! # ESPWebFramework: serial stream helpers and synchronisation wrappers

A shallow embedding of `fdvserial.h` and `fdvsync.h` (namespace `fdv`), with the
properties of the formatting helper, the multi-byte read, the lock guards, the
queue wrapper, the soft time-out and the hardware serial port proved over it.

Conventions of the embedding:

* `uint8_t` is `Fin 256`; wider machine integers are `Nat`/`Int` with the
  reduction modulo `2 ^ w` written out where the C++ code computes in that width.
* A C++ object is a Lean value; a method takes the object and returns the new
  object next to its result.
* A call that may suspend the calling task returns an `Option`: `none` stands
  for a call that never returns (an infinite wait during which nothing else
  touches the object).
* A `bool` function with an out-parameter `T* item` returns `Option T`:
  `some x` is "returned `true` and stored `x`", `none` is "returned `false`
  and left the variable alone".
-/

namespace fdv

/-! ## Machine integers -/

/-- The C type `uint8_t`. -/
abbrev uint8_t := Fin 256

/-- Conversion of an unsigned value to `uint8_t` (reduction modulo `2 ^ 8`). -/
def toUInt8 (n : Nat) : uint8_t := ⟨n % 256, Nat.mod_lt n (by decide)⟩

/-- The modulus of `uint32_t` arithmetic. -/
def UINT32_MOD : Nat := 4294967296

/-- The modulus of `uint16_t` arithmetic. -/
def UINT16_MOD : Nat := 65536

/-! ## `Serial::writeUInt32` (fdvserial.h, lines 109-126) -/

/-- The inner loop `for (int8_t j = 0; j != i; ++j) d *= 10;` run for `i`
rounds on the `uint32_t` variable `d`. -/
def writeUInt32.mulTen : Nat → Nat → Nat
  | 0, d => d
  | j + 1, d => writeUInt32.mulTen j (d * 10 % UINT32_MOD)

/-- The outer loop `for (int8_t i = 9; i >= 0; --i)` of `writeUInt32`; the first
argument is `i + 1`, the number of rounds still to run. `write` is the virtual
single-byte `write` and `s` the state of the object it acts on. -/
def writeUInt32.loop {σ : Type} (write : σ → uint8_t → σ) : Nat → Nat → Bool → σ → σ
  | 0, _, _, s => s
  | i + 1, value, printZero, s =>
    let d := writeUInt32.mulTen i 1
    let v := value / d
    let value' := (value + UINT32_MOD - v * d % UINT32_MOD) % UINT32_MOD
    if v ≠ 0 ∨ printZero = true ∨ i = 0 then
      writeUInt32.loop write i value' true (write s (toUInt8 ((48 + v) % UINT32_MOD)))
    else
      writeUInt32.loop write i value' printZero s

/-- The member `void Serial::writeUInt32(uint32_t value)`. -/
def Serial.writeUInt32 {σ : Type} (write : σ → uint8_t → σ) (value : Nat) (s : σ) : σ :=
  writeUInt32.loop write 10 value false s

/-- The digits of the canonical base-10 numeral of `v`, most significant first:
the single digit `0` for zero, otherwise the digits of `v` without leading zero. -/
def decimalDigits (v : Nat) : List Nat :=
  if v = 0 then [0] else (Nat.digits 10 v).reverse

/-- The ASCII bytes of the canonical base-10 numeral of `v`. -/
def decimalChars (v : Nat) : List uint8_t :=
  (decimalDigits v).map (fun d => toUInt8 (48 + d))

/-- The `k` low digits of `m` in base 10, most significant first, zero padded. -/
def paddedDigits : Nat → Nat → List Nat
  | 0, _ => []
  | k + 1, m => (m / 10 ^ k) :: paddedDigits k (m % 10 ^ k)

/-! ## `Serial::read(uint8_t*, uint16_t)` (fdvserial.h, lines 72-80) -/

/-- The loop `for (int16_t c; bufferLen > 0 && (c = read()) > -1; --bufferLen, ++ret)`
with body `*buffer++ = c;`. `read` is the virtual single-byte `read` acting on the
object state `s`; `p` is the offset of the moving pointer `buffer` from the start
of the caller's array and `ret` the `uint16_t` counter. The arguments are the
values of the variables at the loop test. -/
def Serial.read.loop {σ : Type} (read : σ → Option (Int × σ)) :
    Nat → σ → List uint8_t → Nat → Nat → Option (Nat × List uint8_t × σ)
  | 0, s, buffer, _, ret => some (ret, buffer, s)
  | bufferLen + 1, s, buffer, p, ret =>
    match read s with
    | none => none
    | some (c, s') =>
      if c > -1 then
        Serial.read.loop read bufferLen s' (buffer.set p (toUInt8 (c % 256).toNat)) (p + 1)
          ((ret + 1) % UINT16_MOD)
      else
        some (ret, buffer, s')

/-- The member `uint16_t Serial::read(uint8_t* buffer, uint16_t bufferLen)`: the
result is the returned count, the caller's array and the object after the call. -/
def Serial.read {σ : Type} (read : σ → Option (Int × σ)) (s : σ) (buffer : List uint8_t)
    (bufferLen : Nat) : Option (Nat × List uint8_t × σ) :=
  Serial.read.loop read bufferLen s buffer 0 0

/-- In state `s` the single-byte `read` hands out exactly the bytes `bs`, one per call and
in this order, and the call after them returns a negative value. -/
def Serial.yields {σ : Type} (read : σ → Option (Int × σ)) : σ → List uint8_t → Prop
  | s, [] =>
    match read s with
    | some (c, _) => c < 0
    | none => False
  | s, b :: bs =>
    match read s with
    | some (c, s') => c = (b.val : Int) ∧ Serial.yields read s' bs
    | none => False

/-- Whether a state yields given bytes can be computed by making the calls. -/
instance Serial.yields.decidable {σ : Type} (read : σ → Option (Int × σ)) :
    (s : σ) → (bs : List uint8_t) → Decidable (Serial.yields read s bs)
  | s, [] =>
    match h : read s with
    | some (c, s1) =>
      if hc : c < 0 then isTrue (by simp only [Serial.yields, h]; exact hc)
      else isFalse (by simp only [Serial.yields, h]; exact hc)
    | none => isFalse (by simp [Serial.yields, h])
  | s, b :: bs =>
    match h : read s with
    | some (c, s1) =>
      if hc : c = (b.val : Int) then
        match Serial.yields.decidable read s1 bs with
        | isTrue hy => isTrue (by simp only [Serial.yields, h]; exact ⟨hc, hy⟩)
        | isFalse hy => isFalse (by simp only [Serial.yields, h]; exact fun hx => hy hx.2)
      else isFalse (by simp only [Serial.yields, h]; exact fun hx => hc hx.1)
    | none => isFalse (by simp [Serial.yields, h])

/-- The object after `n` successive calls of the single-byte `read`. -/
def Serial.skip {σ : Type} (read : σ → Option (Int × σ)) : Nat → σ → Option σ
  | 0, s => some s
  | n + 1, s =>
    match read s with
    | some (_, s') => Serial.skip read n s'
    | none => none

/-! ## FreeRTOS primitives

The wrappers of `fdvsync.h` call FreeRTOS, which is not part of these sources. -/

/-- The FreeRTOS port macros `portTICK_RATE_MS` and `portMAX_DELAY` (SDK headers, not
in these sources), taken as parameters. The tick period is positive: the wrappers
divide by it. -/
structure PortConfig where
  portTICK_RATE_MS : Nat
  portMAX_DELAY : Nat
  tick_pos : 0 < portTICK_RATE_MS

/-- The value of a defaulted parameter `uint32_t msTimeOut = portMAX_DELAY`. -/
def defaultTimeOut (cfg : PortConfig) : Nat := cfg.portMAX_DELAY % UINT32_MOD

/-- A call made on a semaphore handle. -/
inductive SemCall where
  | take (xBlockTime : Nat)
  | takeFromISR
  | give
  | giveFromISR
  deriving DecidableEq, Repr

/-- Modelled from the spec: the FreeRTOS binary semaphore behind `xSemaphoreHandle`,
which these sources only use. "binary state {available, held}; no stored owner
identity, no reentrancy". `calls` records every call made on the handle. -/
structure xSemaphoreHandle where
  available : Bool
  calls : List SemCall
  deriving DecidableEq, Repr

/-- Modelled from the spec: `vSemaphoreCreateBinary`, absent from these sources; the
semaphore starts available. -/
def vSemaphoreCreateBinary : xSemaphoreHandle := ⟨true, []⟩

/-- Modelled from the spec: `xSemaphoreTake`, absent from these sources. "attempts to
acquire the binary semaphore; blocks the calling task ... until acquired or timeout
elapses; returns whether acquired". With nothing else running, a held semaphore stays
held: a finite wait ends in failure and a wait of `portMAX_DELAY` ticks never ends. -/
def xSemaphoreTake (cfg : PortConfig) (h : xSemaphoreHandle) (xBlockTime : Nat) :
    Option (Bool × xSemaphoreHandle) :=
  let calls := h.calls ++ [SemCall.take xBlockTime]
  if h.available then some (true, ⟨false, calls⟩)
  else if xBlockTime = 0 then some (false, ⟨false, calls⟩)
  else if xBlockTime = cfg.portMAX_DELAY then none
  else some (false, ⟨false, calls⟩)

/-- Modelled from the spec: `xSemaphoreTakeFromISR`, absent from these sources.
"non-blocking acquire attempt". -/
def xSemaphoreTakeFromISR (h : xSemaphoreHandle) : Bool × xSemaphoreHandle :=
  (h.available, ⟨false, h.calls ++ [SemCall.takeFromISR]⟩)

/-- Modelled from the spec: `xSemaphoreGive`, absent from these sources; releases. -/
def xSemaphoreGive (h : xSemaphoreHandle) : xSemaphoreHandle :=
  ⟨true, h.calls ++ [SemCall.give]⟩

/-- Modelled from the spec: `xSemaphoreGiveFromISR`, absent from these sources;
releases. -/
def xSemaphoreGiveFromISR (h : xSemaphoreHandle) : xSemaphoreHandle :=
  ⟨true, h.calls ++ [SemCall.giveFromISR]⟩

/-- Modelled from the spec: the FreeRTOS queue behind `xQueueHandle`, which these sources
only use. "fixed capacity C ≥ 1 set at construction; holds 0..C elements of type T in
strict FIFO order". `items` are the waiting elements, the head first. -/
structure xQueueHandle (α : Type) where
  uxQueueLength : Nat
  items : List α
  deriving DecidableEq, Repr

/-- Modelled from the spec: `xQueueCreate`, absent from these sources. -/
def xQueueCreate {α : Type} (uxQueueLength : Nat) : xQueueHandle α := ⟨uxQueueLength, []⟩

/-- Modelled from the spec: `xQueueSend`, absent from these sources. "blocking enqueue;
blocks caller until space frees or timeout elapses; returns success"; "enqueue beyond
capacity fails ... rather than growing the buffer". With nothing else running, a full
queue stays full: a finite wait ends in failure and a wait of `portMAX_DELAY` ticks
never ends. -/
def xQueueSend {α : Type} (cfg : PortConfig) (q : xQueueHandle α) (item : α)
    (xTicksToWait : Nat) : Option (Bool × xQueueHandle α) :=
  if q.items.length < q.uxQueueLength then some (true, ⟨q.uxQueueLength, q.items ++ [item]⟩)
  else if xTicksToWait = 0 then some (false, q)
  else if xTicksToWait = cfg.portMAX_DELAY then none
  else some (false, q)

/-- Modelled from the spec: `xQueueSendFromISR`, absent from these sources.
"non-blocking enqueue for interrupt context; on full queue, fails and the item is
lost". -/
def xQueueSendFromISR {α : Type} (q : xQueueHandle α) (item : α) : Bool × xQueueHandle α :=
  if q.items.length < q.uxQueueLength then (true, ⟨q.uxQueueLength, q.items ++ [item]⟩)
  else (false, q)

/-- Modelled from the spec: `xQueueReceive`, absent from these sources. "blocking dequeue
removing the head item; returns success plus the value". With nothing else running, an
empty queue stays empty: a finite wait ends in failure and a wait of `portMAX_DELAY`
ticks never ends. -/
def xQueueReceive {α : Type} (cfg : PortConfig) (q : xQueueHandle α) (xTicksToWait : Nat) :
    Option (Option α × xQueueHandle α) :=
  match q.items with
  | x :: rest => some (some x, ⟨q.uxQueueLength, rest⟩)
  | [] =>
    if xTicksToWait = 0 then some (none, q)
    else if xTicksToWait = cfg.portMAX_DELAY then none
    else some (none, q)

/-- Modelled from the spec: `xQueuePeek`, absent from these sources. "blocking read of
the head item without removing it". -/
def xQueuePeek {α : Type} (cfg : PortConfig) (q : xQueueHandle α) (xTicksToWait : Nat) :
    Option (Option α × xQueueHandle α) :=
  match q.items with
  | x :: _ => some (some x, q)
  | [] =>
    if xTicksToWait = 0 then some (none, q)
    else if xTicksToWait = cfg.portMAX_DELAY then none
    else some (none, q)

/-- Modelled from the spec: `xQueueReset`, absent from these sources. "atomically
discards all pending items". -/
def xQueueReset {α : Type} (q : xQueueHandle α) : xQueueHandle α := ⟨q.uxQueueLength, []⟩

/-- Modelled from the spec: `uxQueueMessagesWaiting`, absent from these sources.
"current item count". -/
def uxQueueMessagesWaiting {α : Type} (q : xQueueHandle α) : Nat := q.items.length

/-! ## Time (fdvsync.h, lines 42-44: declarations only) -/

/-- Modelled from the spec: `millisDiff`, declared in `fdvsync.h` and defined outside
these sources. "returns the forward (non-negative) distance from t1 to t2 modulo the
counter width, correctly handling wraparound": the number of steps a 32-bit counter
takes from `time1` to reach `time2`. -/
def millisDiff (time1 time2 : Nat) : Nat :=
  if time1 ≤ time2 then time2 - time1 else UINT32_MOD - time1 + time2

/-! ## `Mutex` (fdvsync.h, lines 64-102) -/

/-- The class `Mutex`: a wrapper of one semaphore handle. -/
structure Mutex where
  m_handle : xSemaphoreHandle
  deriving DecidableEq, Repr

/-- The constructor `Mutex()`. -/
def Mutex.ctor : Mutex := ⟨vSemaphoreCreateBinary⟩

/-- The tick count `msTimeOut / portTICK_RATE_MS` that `Mutex::lock`, `Queue::send`,
`Queue::receive` and `Queue::peek` hand to FreeRTOS. -/
def msToTicks (cfg : PortConfig) (msTimeOut : Nat) : Nat := msTimeOut / cfg.portTICK_RATE_MS

/-- The member `bool Mutex::lock(uint32_t msTimeOut)`. -/
def Mutex.lock (cfg : PortConfig) (self : Mutex) (msTimeOut : Nat) : Option (Bool × Mutex) :=
  match xSemaphoreTake cfg self.m_handle (msToTicks cfg msTimeOut) with
  | some (r, h) => some (r, ⟨h⟩)
  | none => none

/-- The member `bool Mutex::lockFromISR()`. -/
def Mutex.lockFromISR (self : Mutex) : Bool × Mutex :=
  let r := xSemaphoreTakeFromISR self.m_handle
  (r.1, ⟨r.2⟩)

/-- The member `void Mutex::unlock()`. -/
def Mutex.unlock (self : Mutex) : Mutex := ⟨xSemaphoreGive self.m_handle⟩

/-- The member `void Mutex::unlockFromISR()`. -/
def Mutex.unlockFromISR (self : Mutex) : Mutex := ⟨xSemaphoreGiveFromISR self.m_handle⟩

/-- The number of `unlock` calls made on a mutex so far. -/
def Mutex.unlockCalls (self : Mutex) : Nat := self.m_handle.calls.count SemCall.give

/-- The number of `unlockFromISR` calls made on a mutex so far. -/
def Mutex.unlockFromISRCalls (self : Mutex) : Nat :=
  self.m_handle.calls.count SemCall.giveFromISR

/-! ## `MutexLock` and `MutexLockFromISR` (fdvsync.h, lines 110-159)

The member `Mutex* m_mutex` is the mutex passed to the constructor; the embedding
passes that object to the constructor and the destructor. -/

/-- The class `MutexLock`. -/
structure MutexLock where
  m_acquired : Bool
  deriving DecidableEq, Repr

/-- The constructor `MutexLock(Mutex* mutex, uint32_t msTimeOut)`. -/
def MutexLock.ctor (cfg : PortConfig) (mutex : Mutex) (msTimeOut : Nat) :
    Option (MutexLock × Mutex) :=
  match mutex.lock cfg msTimeOut with
  | some (r, m) => some (⟨r⟩, m)
  | none => none

/-- The destructor `~MutexLock()`. -/
def MutexLock.dtor (self : MutexLock) (mutex : Mutex) : Mutex :=
  if self.m_acquired then mutex.unlock else mutex

/-- The conversion `MutexLock::operator bool()`. -/
def MutexLock.toBool (self : MutexLock) : Bool := self.m_acquired

/-- One lifetime of a `MutexLock`, as in `{ fdv::MutexLock lock(mutex, msTimeOut); }`:
construction followed by destruction. The result is the value of the guard as a `bool`
and the mutex after the block. -/
def MutexLock.scope (cfg : PortConfig) (mutex : Mutex) (msTimeOut : Nat) :
    Option (Bool × Mutex) :=
  match MutexLock.ctor cfg mutex msTimeOut with
  | some (g, m) => some (g.toBool, g.dtor m)
  | none => none

/-- The class `MutexLockFromISR`. -/
structure MutexLockFromISR where
  m_acquired : Bool
  deriving DecidableEq, Repr

/-- The constructor `MutexLockFromISR(Mutex* mutex)`. -/
def MutexLockFromISR.ctor (mutex : Mutex) : MutexLockFromISR × Mutex :=
  let r := mutex.lockFromISR
  (⟨r.1⟩, r.2)

/-- The destructor `~MutexLockFromISR()`. -/
def MutexLockFromISR.dtor (self : MutexLockFromISR) (mutex : Mutex) : Mutex :=
  if self.m_acquired then mutex.unlockFromISR else mutex

/-- The conversion `MutexLockFromISR::operator bool()`. -/
def MutexLockFromISR.toBool (self : MutexLockFromISR) : Bool := self.m_acquired

/-- One lifetime of a `MutexLockFromISR`: construction followed by destruction. -/
def MutexLockFromISR.scope (mutex : Mutex) : Bool × Mutex :=
  let r := MutexLockFromISR.ctor mutex
  (r.1.toBool, r.1.dtor r.2)

/-! ## `SoftTimeOut` (fdvsync.h, lines 168-190)

`millis()` is defined outside these sources: each member that calls it takes the
value the call returns. `millisDiff` is passed in as well, so that what is proved
of the class holds whatever `millisDiff` computes. -/

/-- The class `SoftTimeOut`. -/
structure SoftTimeOut where
  m_timeOut : Nat
  m_startTime : Nat
  deriving DecidableEq, Repr

/-- The constructor `SoftTimeOut(uint32_t time)`, run when `millis()` returns `millis`. -/
def SoftTimeOut.ctor (time millis : Nat) : SoftTimeOut := ⟨time, millis⟩

/-- The conversion `SoftTimeOut::operator bool()`, run when `millis()` returns `millis`. -/
def SoftTimeOut.toBool (millisDiff : Nat → Nat → Nat) (self : SoftTimeOut) (millis : Nat) :
    Bool :=
  decide (millisDiff self.m_startTime millis > self.m_timeOut)

/-- The member `void SoftTimeOut::reset(uint32_t time)`, run when `millis()` returns
`millis`. -/
def SoftTimeOut.reset (_self : SoftTimeOut) (time millis : Nat) : SoftTimeOut :=
  ⟨time, millis⟩

/-! ## `Queue<T>` (fdvsync.h, lines 198-249) -/

/-- The class template `Queue<T>`: a wrapper of one queue handle. -/
structure Queue (α : Type) where
  m_handle : xQueueHandle α
  deriving DecidableEq, Repr

/-- The constructor `Queue(uint32_t queueLength)`. -/
def Queue.ctor {α : Type} (queueLength : Nat) : Queue α := ⟨xQueueCreate queueLength⟩

/-- The member `bool Queue::send(T& item, uint32_t msTimeOut)`. -/
def Queue.send {α : Type} (cfg : PortConfig) (self : Queue α) (item : α) (msTimeOut : Nat) :
    Option (Bool × Queue α) :=
  match xQueueSend cfg self.m_handle item (msToTicks cfg msTimeOut) with
  | some (r, h) => some (r, ⟨h⟩)
  | none => none

/-- The member `bool Queue::sendFromISR(T& item)`. -/
def Queue.sendFromISR {α : Type} (self : Queue α) (item : α) : Bool × Queue α :=
  let r := xQueueSendFromISR self.m_handle item
  (r.1, ⟨r.2⟩)

/-- The member `bool Queue::receive(T* item, uint32_t msTimeOut)`. -/
def Queue.receive {α : Type} (cfg : PortConfig) (self : Queue α) (msTimeOut : Nat) :
    Option (Option α × Queue α) :=
  match xQueueReceive cfg self.m_handle (msToTicks cfg msTimeOut) with
  | some (r, h) => some (r, ⟨h⟩)
  | none => none

/-- The member `bool Queue::peek(T* item, uint32_t msTimeOut)`. -/
def Queue.peek {α : Type} (cfg : PortConfig) (self : Queue α) (msTimeOut : Nat) :
    Option (Option α × Queue α) :=
  match xQueuePeek cfg self.m_handle (msToTicks cfg msTimeOut) with
  | some (r, h) => some (r, ⟨h⟩)
  | none => none

/-- The member `void Queue::clear()`. -/
def Queue.clear {α : Type} (self : Queue α) : Queue α := ⟨xQueueReset self.m_handle⟩

/-- The member `uint32_t Queue::available()`. -/
def Queue.available {α : Type} (self : Queue α) : Nat :=
  uxQueueMessagesWaiting self.m_handle % UINT32_MOD

/-- The elements waiting in a queue, the head first. -/
def Queue.items {α : Type} (self : Queue α) : List α := self.m_handle.items

/-- The capacity a queue was created with. -/
def Queue.capacity {α : Type} (self : Queue α) : Nat := self.m_handle.uxQueueLength

/-! ## `HardwareSerial` (fdvserial.h, lines 143-210) -/

/-- The class `HardwareSerial`: the receive queue is its only data member. -/
structure HardwareSerial where
  m_queue : Queue uint8_t
  deriving DecidableEq, Repr

/-- The constructor `HardwareSerial(uint32_t baud_rate, uint32_t rxBufferLength)`; the
call of `reconfig`, defined outside these sources, touches the hardware only. -/
def HardwareSerial.ctor (rxBufferLength : Nat) : HardwareSerial := ⟨Queue.ctor rxBufferLength⟩

/-- The member `void HardwareSerial::put(uint8_t value)`. -/
def HardwareSerial.put (self : HardwareSerial) (value : uint8_t) : HardwareSerial :=
  ⟨(self.m_queue.sendFromISR value).2⟩

/-- The member `int16_t HardwareSerial::peek()`. -/
def HardwareSerial.peek (cfg : PortConfig) (self : HardwareSerial) :
    Option (Int × HardwareSerial) :=
  match self.m_queue.peek cfg 0 with
  | some (some ret, q) => some ((ret.val : Int), ⟨q⟩)
  | some (none, q) => some (-1, ⟨q⟩)
  | none => none

/-- The member `int16_t HardwareSerial::read()`. -/
def HardwareSerial.read (cfg : PortConfig) (self : HardwareSerial) :
    Option (Int × HardwareSerial) :=
  match self.m_queue.receive cfg 0 with
  | some (some ret, q) => some ((ret.val : Int), ⟨q⟩)
  | some (none, q) => some (-1, ⟨q⟩)
  | none => none

/-- The member `uint16_t HardwareSerial::available()`. -/
def HardwareSerial.available (self : HardwareSerial) : Nat :=
  self.m_queue.available % UINT16_MOD

/-- The member `void HardwareSerial::flush()`. -/
def HardwareSerial.flush (self : HardwareSerial) : HardwareSerial := ⟨self.m_queue.clear⟩

/-- The member `bool HardwareSerial::waitForData(uint32_t timeOutMs)`. -/
def HardwareSerial.waitForData (cfg : PortConfig) (self : HardwareSerial) (timeOutMs : Nat) :
    Option (Bool × HardwareSerial) :=
  match self.m_queue.peek cfg timeOutMs with
  | some (r, q) => some (r.isSome, ⟨q⟩)
  | none => none

/-! ## Runs of calls

Sequences of calls on one queue, or on one serial port, with a record of what the
calls handed in and what they handed back. -/

/-- One call on a `Queue<T>`. -/
inductive QueueOp (α : Type) where
  | send (item : α) (msTimeOut : Nat)
  | sendFromISR (item : α)
  | receive (msTimeOut : Nat)

/-- A queue together with the elements its `send`/`sendFromISR` calls accepted (returned
`true` for) and the elements its `receive` calls returned, both in call order. -/
structure QueueRun (α : Type) where
  queue : Queue α
  sent : List α
  received : List α

/-- One call of a run. -/
def Queue.step {α : Type} (cfg : PortConfig) (r : QueueRun α) : QueueOp α → Option (QueueRun α)
  | QueueOp.send item msTimeOut =>
    match r.queue.send cfg item msTimeOut with
    | some (true, q) => some ⟨q, r.sent ++ [item], r.received⟩
    | some (false, q) => some ⟨q, r.sent, r.received⟩
    | none => none
  | QueueOp.sendFromISR item =>
    match r.queue.sendFromISR item with
    | (true, q) => some ⟨q, r.sent ++ [item], r.received⟩
    | (false, q) => some ⟨q, r.sent, r.received⟩
  | QueueOp.receive msTimeOut =>
    match r.queue.receive cfg msTimeOut with
    | some (some x, q) => some ⟨q, r.sent, r.received ++ [x]⟩
    | some (none, q) => some ⟨q, r.sent, r.received⟩
    | none => none

/-- The calls of a list made one after the other; `none` when one of them never returns. -/
def Queue.run {α : Type} (cfg : PortConfig) : List (QueueOp α) → QueueRun α → Option (QueueRun α)
  | [], r => some r
  | op :: ops, r =>
    match Queue.step cfg r op with
    | some r' => Queue.run cfg ops r'
    | none => none

/-- A call that cannot suspend the caller: `sendFromISR`, or a time-out of zero. -/
def QueueOp.immediate {α : Type} : QueueOp α → Bool
  | QueueOp.send _ msTimeOut => decide (msTimeOut = 0)
  | QueueOp.sendFromISR _ => true
  | QueueOp.receive msTimeOut => decide (msTimeOut = 0)

/-- One call on the receive side of a `HardwareSerial`. -/
inductive SerialOp where
  | put (value : uint8_t)
  | read

/-- A serial port together with the bytes `put` while the receive queue had room and the
non-negative results of its `read()` calls, both in call order. -/
structure SerialRun where
  serial : HardwareSerial
  delivered : List uint8_t
  reads : List Int

/-- One call of a run on a serial port. -/
def HardwareSerial.step (cfg : PortConfig) (r : SerialRun) : SerialOp → Option SerialRun
  | SerialOp.put value =>
    if r.serial.m_queue.items.length < r.serial.m_queue.capacity then
      some ⟨r.serial.put value, r.delivered ++ [value], r.reads⟩
    else
      some ⟨r.serial.put value, r.delivered, r.reads⟩
  | SerialOp.read =>
    match r.serial.read cfg with
    | some (c, h) => if c > -1 then some ⟨h, r.delivered, r.reads ++ [c]⟩
                     else some ⟨h, r.delivered, r.reads⟩
    | none => none

/-- The calls of a list made one after the other on a serial port. -/
def HardwareSerial.run (cfg : PortConfig) : List SerialOp → SerialRun → Option SerialRun
  | [], r => some r
  | op :: ops, r =>
    match HardwareSerial.step cfg r op with
    | some r' => HardwareSerial.run cfg ops r'
    | none => none

/-- The ESP8266 RTOS SDK port: a tick of 10 ms (`configTICK_RATE_HZ` 100) and 32-bit
tick counts. -/
def esp8266Port : PortConfig := ⟨10, 4294967295, by decide⟩

/-- A port with a tick of 1 ms and 32-bit tick counts. -/
def oneMsPort : PortConfig := ⟨1, 4294967295, by decide⟩

/-- The write of a port that appends every byte it is given to a list. -/
def traceWrite (s : List uint8_t) (b : uint8_t) : List uint8_t := s ++ [b]

/-! # Properties -/

/-! ## `Serial::writeUInt32` prints the decimal numeral -/

theorem mulTen_eq (i : Nat) : ∀ d, d * 10 ^ i < UINT32_MOD → writeUInt32.mulTen i d = d * 10 ^ i := by
  induction i with
  | zero => intro d _; simp [writeUInt32.mulTen]
  | succ i ih =>
    intro d h
    have h1 : d * 10 * 10 ^ i < UINT32_MOD := by
      have : d * 10 ^ (i + 1) = d * 10 * 10 ^ i := by ring
      omega
    have h2 : d * 10 < UINT32_MOD := by
      have : 1 ≤ 10 ^ i := Nat.one_le_pow _ _ (by decide)
      calc d * 10 = d * 10 * 1 := by ring
        _ ≤ d * 10 * 10 ^ i := Nat.mul_le_mul_left _ this
        _ < UINT32_MOD := h1
    rw [writeUInt32.mulTen, Nat.mod_eq_of_lt h2, ih _ h1]
    ring

theorem mulTen_one (i : Nat) (hi : i ≤ 9) : writeUInt32.mulTen i 1 = 10 ^ i := by
  have h : (10 : Nat) ^ i ≤ 10 ^ 9 := Nat.pow_le_pow_right (by decide) hi
  rw [mulTen_eq i 1 (by simp only [UINT32_MOD]; omega), one_mul]

theorem paddedDigits_length (k : Nat) : ∀ m, (paddedDigits k m).length = k := by
  induction k with
  | zero => intro m; rfl
  | succ k ih => intro m; simp [paddedDigits, ih]

theorem paddedDigits_lt (k : Nat) : ∀ m, m < 10 ^ k → ∀ d ∈ paddedDigits k m, d < 10 := by
  induction k with
  | zero => intro m _ d hd; simp [paddedDigits] at hd
  | succ k ih =>
    intro m hm d hd
    simp only [paddedDigits, List.mem_cons] at hd
    rcases hd with rfl | hd
    · rw [Nat.div_lt_iff_lt_mul (by positivity)]
      rw [pow_succ] at hm; omega
    · exact ih _ (Nat.mod_lt _ (by positivity)) d hd

theorem ofDigits_paddedDigits (k : Nat) :
    ∀ m, m < 10 ^ k → Nat.ofDigits 10 (paddedDigits k m).reverse = m := by
  induction k with
  | zero => intro m hm; simp at hm; simp [paddedDigits, hm]
  | succ k ih =>
    intro m _
    simp only [paddedDigits, List.reverse_cons, Nat.ofDigits_append,
      ih _ (Nat.mod_lt _ (by positivity)), List.length_reverse,
      paddedDigits_length, Nat.ofDigits_singleton]
    exact Nat.mod_add_div m (10 ^ k)

theorem decimalDigits_eq_padded (k m : Nat) (hm : m < 10 ^ (k + 1)) (hv : m / 10 ^ k ≠ 0) :
    decimalDigits m = paddedDigits (k + 1) m := by
  have hm0 : m ≠ 0 := by
    rintro rfl
    simp at hv
  have hL : Nat.digits 10 (Nat.ofDigits 10 (paddedDigits (k + 1) m).reverse)
      = (paddedDigits (k + 1) m).reverse := by
    apply Nat.digits_ofDigits 10 (by decide)
    · intro l hl
      exact paddedDigits_lt (k + 1) m hm l (List.mem_reverse.mp hl)
    · intro h
      simp [paddedDigits, hv]
  rw [ofDigits_paddedDigits _ _ hm] at hL
  simp [decimalDigits, hm0, hL]

theorem loop_padded {σ : Type} (write : σ → uint8_t → σ) (i : Nat) :
    ∀ (value : Nat) (s : σ), i ≤ 10 → value < 10 ^ i → value < UINT32_MOD →
      writeUInt32.loop write i value true s
        = ((paddedDigits i value).map (fun d => toUInt8 (48 + d))).foldl write s := by
  induction i with
  | zero => intro value s _ _ _; rfl
  | succ i ih =>
    intro value s hi hv hM
    have hd : writeUInt32.mulTen i 1 = 10 ^ i := mulTen_one i (by omega)
    have hpos : 0 < 10 ^ i := by positivity
    have hle : value / 10 ^ i * 10 ^ i ≤ value := Nat.div_mul_le_self _ _
    have hq : value / 10 ^ i < 10 := by
      rw [Nat.div_lt_iff_lt_mul hpos]; rw [pow_succ] at hv; omega
    have hval : (value + UINT32_MOD - value / 10 ^ i * 10 ^ i % UINT32_MOD) % UINT32_MOD
        = value % 10 ^ i := by
      have := Nat.mod_add_div value (10 ^ i)
      rw [Nat.mod_eq_of_lt (a := value / 10 ^ i * 10 ^ i) (by omega)]
      have h3 : value + UINT32_MOD - value / 10 ^ i * 10 ^ i = value % 10 ^ i + UINT32_MOD := by
        rw [Nat.mul_comm] ; omega
      rw [h3, Nat.add_mod_right]
      exact Nat.mod_eq_of_lt (lt_of_le_of_lt (Nat.mod_le _ _) hM)
    have hc : (48 + value / 10 ^ i) % UINT32_MOD = 48 + value / 10 ^ i := by
      apply Nat.mod_eq_of_lt; simp only [UINT32_MOD]; omega
    simp only [writeUInt32.loop, hd, hval, hc, true_or, or_true, if_true, paddedDigits,
      List.map_cons, List.foldl_cons]
    exact ih _ _ (by omega) (Nat.mod_lt _ hpos) (lt_of_le_of_lt (Nat.mod_le _ _) hM)

theorem loop_false_of_digit {σ : Type} (write : σ → uint8_t → σ) (i value : Nat) (s : σ)
    (hv : value / writeUInt32.mulTen i 1 ≠ 0) :
    writeUInt32.loop write (i + 1) value false s = writeUInt32.loop write (i + 1) value true s := by
  simp [writeUInt32.loop, hv]

theorem loop_canonical {σ : Type} (write : σ → uint8_t → σ) (i : Nat) :
    ∀ (value : Nat) (s : σ), i + 1 ≤ 10 → value < 10 ^ (i + 1) → value < UINT32_MOD →
      writeUInt32.loop write (i + 1) value false s = (decimalChars value).foldl write s := by
  induction i with
  | zero =>
    intro value s _ hv hM
    by_cases h0 : value = 0
    · subst h0; rfl
    · have hvv : value / writeUInt32.mulTen 0 1 ≠ 0 := by simpa [writeUInt32.mulTen] using h0
      rw [loop_false_of_digit write 0 value s hvv, loop_padded write 1 value s (by decide) hv hM,
        decimalChars, decimalDigits_eq_padded 0 value hv (by simpa using h0)]
  | succ i ih =>
    intro value s hi hv hM
    have hd : writeUInt32.mulTen (i + 1) 1 = 10 ^ (i + 1) := mulTen_one (i + 1) (by omega)
    by_cases h0 : value / 10 ^ (i + 1) = 0
    · have hlt : value < 10 ^ (i + 1) := by
        exact (Nat.div_eq_zero_iff (by positivity)).mp h0
      have hval : (value + UINT32_MOD - 0 % UINT32_MOD) % UINT32_MOD = value := by
        simp [Nat.mod_eq_of_lt hM]
      rw [writeUInt32.loop]
      simp only [hd, h0, zero_mul, hval, ne_eq, not_true_eq_false, Bool.false_eq_true,
        false_or, Nat.add_one_ne_zero, if_false]
      exact ih value s (by omega) hlt hM
    · rw [loop_false_of_digit write (i + 1) value s (by rw [hd]; exact h0),
        loop_padded write (i + 2) value s (by omega) hv hM,
        decimalChars, decimalDigits_eq_padded (i + 1) value hv h0]

theorem writeUInt32_eq {σ : Type} (write : σ → uint8_t → σ) (value : Nat) (s : σ)
    (h : value < UINT32_MOD) :
    Serial.writeUInt32 write value s = (decimalChars value).foldl write s :=
  loop_canonical write 9 value s (by decide) (by simp only [UINT32_MOD] at h; omega) h

theorem decimalDigits_lt (v : Nat) : ∀ d ∈ decimalDigits v, d < 10 := by
  intro d hd
  unfold decimalDigits at hd
  split at hd
  · simp at hd; omega
  · exact Nat.digits_lt_base (by decide) (List.mem_reverse.mp hd)

theorem ofDigits_decimalDigits (v : Nat) : Nat.ofDigits 10 (decimalDigits v).reverse = v := by
  unfold decimalDigits
  split
  · subst_vars; simp
  · simp [Nat.ofDigits_digits]

theorem decimalDigits_head (v : Nat) (hv : v ≠ 0) : (decimalDigits v).head? ≠ some 0 := by
  have h := Nat.getLast_digit_ne_zero 10 hv
  simp only [decimalDigits, hv, if_false, List.head?_reverse]
  intro hc
  rw [List.getLast?_eq_getLast _ (Nat.digits_ne_nil_iff_ne_zero.mpr hv)] at hc
  exact h (Option.some.inj hc)

theorem decimalDigits_step (n : Nat) (h : n / 10 ≠ 0) :
    decimalDigits n = decimalDigits (n / 10) ++ [n % 10] := by
  have hn : n ≠ 0 := by rintro rfl; simp at h
  have := Nat.digits_def' (b := 10) (by decide) (Nat.pos_of_ne_zero hn)
  simp [decimalDigits, hn, h, this]

theorem decimalDigits_small (n : Nat) (h : n / 10 = 0) : decimalDigits n = [n % 10] := by
  have hlt : n < 10 := (Nat.div_eq_zero_iff (by decide)).mp h
  by_cases hn : n = 0
  · subst hn; rfl
  · have := Nat.digits_def' (b := 10) (by decide) (Nat.pos_of_ne_zero hn)
    simp [decimalDigits, hn, h, this]

theorem toDigitsCore_eq (fuel : Nat) : ∀ (n : Nat) (ds : List Char), n < fuel →
    Nat.toDigitsCore 10 fuel n ds = (decimalDigits n).map Nat.digitChar ++ ds := by
  induction fuel with
  | zero => intro n ds h; omega
  | succ fuel ih =>
    intro n ds h
    rw [Nat.toDigitsCore]
    by_cases h0 : n / 10 = 0
    · simp [h0, decimalDigits_small n h0]
    · simp only [h0, if_false]
      rw [ih _ _ (by omega), decimalDigits_step n h0]
      simp

theorem digitChar_toNat (d : Nat) (h : d < 10) : (Nat.digitChar d).toNat = 48 + d := by
  interval_cases d <;> rfl

theorem decimalChars_eq_repr (v : Nat) :
    decimalChars v = (Nat.repr v).toList.map (fun c => toUInt8 c.toNat) := by
  have : (Nat.repr v).toList = (decimalDigits v).map Nat.digitChar := by
    simp [Nat.repr, Nat.toDigits, String.toList, List.asString, toDigitsCore_eq (v + 1) v [] (by omega)]
  rw [this, decimalChars, List.map_map]
  apply List.map_congr_left
  intro d hd
  simp [digitChar_toNat d (decimalDigits_lt v d hd)]

theorem decimalChars_range (v : Nat) : ∀ c ∈ decimalChars v, 48 ≤ c.val ∧ c.val ≤ 57 := by
  intro c hc
  simp only [decimalChars, List.mem_map] at hc
  obtain ⟨d, hd, rfl⟩ := hc
  have := decimalDigits_lt v d hd
  simp only [toUInt8]
  omega

theorem decimalChars_value (v : Nat) :
    (decimalChars v).reverse.map (fun c => c.val - 48) = (decimalDigits v).reverse := by
  rw [decimalChars, ← List.map_reverse, List.map_map]
  conv_rhs => rw [← List.map_id (decimalDigits v).reverse]
  apply List.map_congr_left
  intro d hd
  have := decimalDigits_lt v d (List.mem_reverse.mp hd)
  simp only [Function.comp, toUInt8, id]
  omega

/-- C1: for every unsigned 32-bit `value`, `writeUInt32` hands to the single-byte `write`
exactly the bytes of `decimalChars value`, in order (on any port; on a port that records
its writes the record is `decimalChars value`). These bytes are the characters of the
decimal numeral `Nat.repr value`: each lies in '0'..'9', read as digits they denote
`value`, zero gives the single byte '0', and a non-zero value has no leading '0'. -/
theorem writeUInt32_emits_decimal {σ : Type} (write : σ → uint8_t → σ) (s : σ) (value : Nat)
    (h : value < UINT32_MOD) :
    Serial.writeUInt32 write value s = (decimalChars value).foldl write s
    ∧ Serial.writeUInt32 traceWrite value [] = decimalChars value
    ∧ decimalChars value = (Nat.repr value).toList.map (fun c => toUInt8 c.toNat)
    ∧ (∀ c ∈ decimalChars value, 48 ≤ c.val ∧ c.val ≤ 57)
    ∧ Nat.ofDigits 10 ((decimalChars value).reverse.map (fun c => c.val - 48)) = value
    ∧ (value = 0 → decimalChars value = [48])
    ∧ (value ≠ 0 → (decimalChars value).head? ≠ some 48) := by
  refine ⟨writeUInt32_eq write value s h, ?_, decimalChars_eq_repr value,
    decimalChars_range value, ?_, ?_, ?_⟩
  · rw [writeUInt32_eq traceWrite value [] h]
    have : ∀ (l acc : List uint8_t), l.foldl traceWrite acc = acc ++ l := by
      intro l
      induction l with
      | nil => intro acc; simp
      | cons b l ih => intro acc; simp [List.foldl_cons, ih, traceWrite]
    simpa using this (decimalChars value) []
  · rw [decimalChars_value, ofDigits_decimalDigits]
  · rintro rfl; rfl
  · intro hv hc
    apply decimalDigits_head value hv
    simp only [decimalChars, List.head?_map] at hc
    cases hd : (decimalDigits value).head? with
    | none => simp [hd] at hc
    | some d =>
      simp only [hd, Option.map_some', Option.some.injEq] at hc
      have hlt : d < 10 := decimalDigits_lt value d (List.mem_of_mem_head? hd)
      have := congrArg Fin.val hc
      simp only [toUInt8] at this
      have h48 : ((48 : uint8_t) : Nat) = 48 := rfl
      rw [h48] at this
      congr 1
      omega

/-- The largest and the smallest input of `writeUInt32` on a port that records its
writes: the bytes of "4294967295" and the single byte of "0". -/
theorem writeUInt32_emits_decimal_witness :
    (4294967295 < UINT32_MOD
      ∧ Serial.writeUInt32 traceWrite 4294967295 []
          = [52, 50, 57, 52, 57, 54, 55, 50, 57, 53])
    ∧ Serial.writeUInt32 traceWrite 0 [] = [48] := by
  refine ⟨⟨by decide, ?_⟩, ?_⟩
  · rw [(writeUInt32_emits_decimal traceWrite [] 4294967295 (by decide)).2.1,
      (writeUInt32_emits_decimal traceWrite [] 4294967295 (by decide)).2.2.1]
    decide
  · rw [(writeUInt32_emits_decimal traceWrite [] 0 (by decide)).2.1,
      (writeUInt32_emits_decimal traceWrite [] 0 (by decide)).2.2.1]
    decide

/-! ## `Serial::read(buffer, bufferLen)` copies the first bytes of the stream -/

theorem toUInt8_val (b : uint8_t) : toUInt8 (((b.val : Int) % 256).toNat) = b := by
  apply Fin.ext
  have hb := b.isLt
  simp only [toUInt8]
  have : ((b.val : Int) % 256).toNat = b.val := by omega
  rw [this]
  exact Nat.mod_eq_of_lt hb

theorem set_take_drop (buffer : List uint8_t) (p k : Nat) (b : uint8_t) (bs : List uint8_t)
    (hp : p < buffer.length) :
    (buffer.set p b).take (p + 1) ++ bs ++ (buffer.set p b).drop (p + 1 + k)
      = buffer.take p ++ b :: bs ++ buffer.drop (p + (k + 1)) := by
  rw [List.set_eq_take_append_cons_drop]
  simp only [hp, if_true]
  have hl : (buffer.take p).length = p := by simp; omega
  have h1 : (List.take p buffer ++ b :: List.drop (p + 1) buffer).take (p + 1)
      = List.take p buffer ++ [b] := by
    rw [List.take_append_eq_append_take]
    simp [hl, List.take_take]
  have h2 : (List.take p buffer ++ b :: List.drop (p + 1) buffer).drop (p + 1 + k)
      = buffer.drop (p + (k + 1)) := by
    rw [List.drop_append_eq_append_drop]
    simp only [hl]
    have : p + 1 + k - p = k + 1 := by omega
    rw [this, List.drop_succ_cons, List.drop_drop]
    have h3 : List.drop (p + 1 + k) (List.take p buffer) = [] := by
      apply List.drop_eq_nil_of_le; simp; omega
    rw [h3]
    simp; congr 1; omega
  rw [h1, h2]
  simp

theorem read_loop_spec {σ : Type} (read : σ → Option (Int × σ)) (n : Nat) :
    ∀ (s : σ) (bs buffer : List uint8_t) (p ret : Nat), Serial.yields read s bs →
      p + n ≤ buffer.length → ret + n < UINT16_MOD →
      ∃ s', Serial.read.loop read n s buffer p ret
          = some (ret + min n bs.length,
              buffer.take p ++ bs.take n ++ buffer.drop (p + min n bs.length), s')
        ∧ (n ≤ bs.length → Serial.skip read n s = some s' ∧ Serial.yields read s' (bs.drop n))
        ∧ (bs.length < n → ∃ s0 c, Serial.skip read bs.length s = some s0
              ∧ read s0 = some (c, s') ∧ c < 0) := by
  induction n with
  | zero =>
    intro s bs buffer p ret hy _ _
    exact ⟨s, by simp [Serial.read.loop], fun _ => ⟨rfl, by simpa using hy⟩,
      fun h => absurd h (by omega)⟩
  | succ n ih =>
    intro s bs buffer p ret hy hp hr
    cases bs with
    | nil =>
      simp only [Serial.yields] at hy
      cases hrd : read s with
      | none => simp [hrd] at hy
      | some cs =>
        obtain ⟨c, s1⟩ := cs
        simp only [hrd] at hy
        refine ⟨s1, ?_, fun h => absurd h (by simp), fun _ => ⟨s, c, rfl, hrd, hy⟩⟩
        have hc : ¬ c > -1 := by omega
        simp [Serial.read.loop, hrd, hc]
    | cons b bs =>
      simp only [Serial.yields] at hy
      cases hrd : read s with
      | none => simp [hrd] at hy
      | some cs =>
        obtain ⟨c, s1⟩ := cs
        simp only [hrd] at hy
        obtain ⟨hc, hy1⟩ := hy
        subst hc
        have hpos : ((b.val : Nat) : Int) > -1 := by omega
        obtain ⟨s', h1, h2, h3⟩ := ih s1 bs (buffer.set p b) (p + 1) ((ret + 1) % UINT16_MOD) hy1
          (by simp; omega) (by
            have : (ret + 1) % UINT16_MOD = ret + 1 := Nat.mod_eq_of_lt (by omega)
            omega)
        have hmod : (ret + 1) % UINT16_MOD = ret + 1 := Nat.mod_eq_of_lt (by omega)
        refine ⟨s', ?_, ?_, ?_⟩
        · rw [Serial.read.loop]
          rw [hmod] at h1
          simp only [hrd, hpos, if_true, toUInt8_val, hmod]
          have hmin : min (n + 1) (b :: bs).length = min n bs.length + 1 := by
            simp [Nat.succ_min_succ]
          rw [hmin, List.take_succ_cons, h1,
            set_take_drop buffer p (min n bs.length) b (bs.take n) (by omega)]
          simp only [Option.some.injEq, Prod.mk.injEq, and_true]
          omega
        · intro hle
          have := h2 (by simpa using hle)
          simpa [Serial.skip, hrd] using this
        · intro hlt
          obtain ⟨s0, c, ha, hb, hc⟩ := h3 (by simpa using hlt)
          exact ⟨s0, c, by simpa [Serial.skip, hrd] using ha, hb, hc⟩

/-- C2: if in state `s` the single-byte `read()` yields exactly the bytes `bs` before it
returns a negative value, then `read(buffer, bufferLen)` (with `bufferLen` a `uint16_t` and
the array at least that long) returns `min bufferLen bs.length`, leaves the first that many
bytes of `bs` at the start of the array and the rest of the array untouched, and ends in
the state reached by exactly that many successful single-byte reads: for
`bufferLen ≤ bs.length` no further `read()` is made and the bytes still to come are
`bs.drop bufferLen`; otherwise the only further call is the one that returned a negative
value. With `bufferLen = 0` the state is unchanged. -/
theorem Serial_read_copies_first_bytes {σ : Type} (read : σ → Option (Int × σ)) (s : σ)
    (bs buffer : List uint8_t) (bufferLen : Nat) (hy : Serial.yields read s bs)
    (hlen : bufferLen < UINT16_MOD) (hbuf : bufferLen ≤ buffer.length) :
    ∃ s', Serial.read read s buffer bufferLen
        = some (min bufferLen bs.length,
            bs.take bufferLen ++ buffer.drop (min bufferLen bs.length), s')
      ∧ (bufferLen ≤ bs.length →
          Serial.skip read bufferLen s = some s' ∧ Serial.yields read s' (bs.drop bufferLen))
      ∧ (bs.length < bufferLen →
          ∃ s0 c, Serial.skip read bs.length s = some s0 ∧ read s0 = some (c, s') ∧ c < 0)
      ∧ (bufferLen = 0 → s' = s) := by
  obtain ⟨s', h1, h2, h3⟩ := read_loop_spec read bufferLen s bs buffer 0 0 hy
    (by omega) (by omega)
  refine ⟨s', ?_, h2, h3, ?_⟩
  · simpa [Serial.read] using h1
  · rintro rfl
    have := (h2 (Nat.zero_le _)).1
    simpa [Serial.skip] using this.symm

/-- A `HardwareSerial` whose receive queue holds the bytes 200, 7, 0: a read of two bytes
into an array of four returns 2, stores 200 and 7 and leaves the byte 0 queued; a read of
four bytes returns 3 and empties the queue; a read of no bytes leaves the queue alone. -/
theorem Serial_read_copies_first_bytes_witness :
    Serial.yields (HardwareSerial.read esp8266Port) ⟨⟨⟨4, [200, 7, 0]⟩⟩⟩ [200, 7, 0]
    ∧ 2 < UINT16_MOD ∧ 2 ≤ [(1 : uint8_t), 1, 1, 1].length
    ∧ Serial.read (HardwareSerial.read esp8266Port) ⟨⟨⟨4, [200, 7, 0]⟩⟩⟩ [1, 1, 1, 1] 2
        = some (2, [200, 7, 1, 1], ⟨⟨⟨4, [0]⟩⟩⟩)
    ∧ Serial.read (HardwareSerial.read esp8266Port) ⟨⟨⟨4, [200, 7, 0]⟩⟩⟩ [1, 1, 1, 1] 4
        = some (3, [200, 7, 0, 1], ⟨⟨⟨4, []⟩⟩⟩)
    ∧ Serial.read (HardwareSerial.read esp8266Port) ⟨⟨⟨4, [200, 7, 0]⟩⟩⟩ [1, 1, 1, 1] 0
        = some (0, [1, 1, 1, 1], ⟨⟨⟨4, [200, 7, 0]⟩⟩⟩) := by
  have hy : Serial.yields (HardwareSerial.read esp8266Port) ⟨⟨⟨4, [200, 7, 0]⟩⟩⟩ [200, 7, 0] := by
    decide
  refine ⟨hy, by decide, by decide, ?_, by decide, by decide⟩
  obtain ⟨s', h1, h2, _⟩ := Serial_read_copies_first_bytes (HardwareSerial.read esp8266Port)
    ⟨⟨⟨4, [200, 7, 0]⟩⟩⟩ [200, 7, 0] [1, 1, 1, 1] 2 hy (by decide) (by decide)
  have hs : some (⟨⟨⟨4, [0]⟩⟩⟩ : HardwareSerial) = some s' := (h2 (by decide)).1
  cases hs
  rw [h1]
  rfl

/-! ## The lock guards release exactly what they acquired -/

theorem count_give_snoc (l : List SemCall) (c : SemCall) :
    (l ++ [c]).count SemCall.give = l.count SemCall.give + (if c = SemCall.give then 1 else 0) := by
  rw [List.count_append]
  by_cases h : c = SemCall.give
  · subst h; simp
  · have h2 : ¬ (c == SemCall.give) = true := by simpa using h
    simp [h, List.count_cons, h2]

theorem count_giveFromISR_snoc (l : List SemCall) (c : SemCall) :
    (l ++ [c]).count SemCall.giveFromISR
      = l.count SemCall.giveFromISR + (if c = SemCall.giveFromISR then 1 else 0) := by
  rw [List.count_append]
  by_cases h : c = SemCall.giveFromISR
  · subst h; simp
  · have h2 : ¬ (c == SemCall.giveFromISR) = true := by simpa using h
    simp [h, List.count_cons, h2]

theorem lock_calls (cfg : PortConfig) (mutex : Mutex) (msTimeOut : Nat) (r : Bool) (m1 : Mutex)
    (h : mutex.lock cfg msTimeOut = some (r, m1)) :
    m1.m_handle.calls = mutex.m_handle.calls ++ [SemCall.take (msToTicks cfg msTimeOut)] := by
  unfold Mutex.lock xSemaphoreTake at h
  split at h
  · rename_i r' h' heq
    simp only [Option.some.injEq, Prod.mk.injEq] at h
    obtain ⟨_, rfl⟩ := h
    split_ifs at heq <;> simp at heq <;> simp [← heq.2]
  · simp at h

/-- C3: over one lifetime of a `MutexLock` (construction with any time-out on any mutex,
then destruction) the guard converts to the `bool` the lock attempt returned, and the
destructor calls `unlock` once if that was `true` and not at all if it was `false` (it
then leaves the mutex as it is); it never calls `unlockFromISR`. The same holds for
`MutexLockFromISR` with `lockFromISR` and `unlockFromISR`. -/
theorem guard_unlocks_iff_acquired (cfg : PortConfig) (mutex : Mutex) (msTimeOut : Nat) :
    (∀ r m1, mutex.lock cfg msTimeOut = some (r, m1) →
      (∃ g, MutexLock.ctor cfg mutex msTimeOut = some (g, m1) ∧ g.toBool = r
        ∧ ∀ m2 : Mutex, (g.dtor m2).unlockCalls = m2.unlockCalls + (if r then 1 else 0)
            ∧ (g.dtor m2).unlockFromISRCalls = m2.unlockFromISRCalls
            ∧ (r = false → g.dtor m2 = m2))
      ∧ ∃ m3, MutexLock.scope cfg mutex msTimeOut = some (r, m3)
          ∧ m3.unlockCalls = mutex.unlockCalls + (if r then 1 else 0)
          ∧ m3.unlockFromISRCalls = mutex.unlockFromISRCalls)
    ∧ (mutex.lock cfg msTimeOut = none → MutexLock.scope cfg mutex msTimeOut = none)
    ∧ ((∃ g, MutexLockFromISR.ctor mutex = (g, mutex.lockFromISR.2)
          ∧ g.toBool = mutex.lockFromISR.1
          ∧ ∀ m2 : Mutex, (g.dtor m2).unlockFromISRCalls
                = m2.unlockFromISRCalls + (if mutex.lockFromISR.1 then 1 else 0)
            ∧ (g.dtor m2).unlockCalls = m2.unlockCalls
            ∧ (mutex.lockFromISR.1 = false → g.dtor m2 = m2))
      ∧ (MutexLockFromISR.scope mutex).1 = mutex.lockFromISR.1
      ∧ (MutexLockFromISR.scope mutex).2.unlockFromISRCalls
          = mutex.unlockFromISRCalls + (if mutex.lockFromISR.1 then 1 else 0)
      ∧ (MutexLockFromISR.scope mutex).2.unlockCalls = mutex.unlockCalls) := by
  refine ⟨?_, ?_, ?_⟩
  · intro r m1 h
    have hc := lock_calls cfg mutex msTimeOut r m1 h
    have hd : ∀ m2 : Mutex, ((⟨r⟩ : MutexLock).dtor m2).unlockCalls
          = m2.unlockCalls + (if r then 1 else 0)
        ∧ ((⟨r⟩ : MutexLock).dtor m2).unlockFromISRCalls = m2.unlockFromISRCalls
        ∧ (r = false → (⟨r⟩ : MutexLock).dtor m2 = m2) := by
      intro m2
      cases r
      · simp [MutexLock.dtor]
      · simp [MutexLock.dtor, Mutex.unlock, xSemaphoreGive, Mutex.unlockCalls,
          Mutex.unlockFromISRCalls, count_give_snoc, count_giveFromISR_snoc]
    refine ⟨⟨⟨r⟩, by simp [MutexLock.ctor, h], rfl, hd⟩, ?_⟩
    refine ⟨(⟨r⟩ : MutexLock).dtor m1, by simp [MutexLock.scope, MutexLock.ctor, h, MutexLock.toBool], ?_, ?_⟩
    · rw [(hd m1).1]
      simp [Mutex.unlockCalls, hc, count_give_snoc]
    · rw [(hd m1).2.1]
      simp [Mutex.unlockFromISRCalls, hc, count_giveFromISR_snoc]
  · intro h
    simp [MutexLock.scope, MutexLock.ctor, h]
  · have hd : ∀ (r : Bool) (m2 : Mutex), ((⟨r⟩ : MutexLockFromISR).dtor m2).unlockFromISRCalls
          = m2.unlockFromISRCalls + (if r then 1 else 0)
        ∧ ((⟨r⟩ : MutexLockFromISR).dtor m2).unlockCalls = m2.unlockCalls
        ∧ (r = false → (⟨r⟩ : MutexLockFromISR).dtor m2 = m2) := by
      intro r m2
      cases r
      · simp [MutexLockFromISR.dtor]
      · simp [MutexLockFromISR.dtor, Mutex.unlockFromISR, xSemaphoreGiveFromISR,
          Mutex.unlockCalls, Mutex.unlockFromISRCalls, count_give_snoc, count_giveFromISR_snoc]
    refine ⟨⟨⟨mutex.lockFromISR.1⟩, rfl, rfl, hd _⟩, rfl, ?_, ?_⟩
    · have := (hd mutex.lockFromISR.1 mutex.lockFromISR.2).1
      simp only [MutexLockFromISR.scope, MutexLockFromISR.ctor]
      rw [this]
      simp [Mutex.unlockFromISRCalls, Mutex.lockFromISR, xSemaphoreTakeFromISR,
        count_giveFromISR_snoc]
    · have := (hd mutex.lockFromISR.1 mutex.lockFromISR.2).2.1
      simp only [MutexLockFromISR.scope, MutexLockFromISR.ctor]
      rw [this]
      simp [Mutex.unlockCalls, Mutex.lockFromISR, xSemaphoreTakeFromISR, count_give_snoc]

/-- A held mutex and a wait of 100 ms (10 ticks): the lock attempt times out, the guard is
`false` and the block ends with no `unlock` call. An available mutex: the guard is `true`
and the block ends with one `unlock` call. From an interrupt handler, likewise. -/
theorem guard_unlocks_iff_acquired_witness :
    Mutex.lock esp8266Port ⟨⟨false, []⟩⟩ 100 = some (false, ⟨⟨false, [SemCall.take 10]⟩⟩)
    ∧ (∃ m3, MutexLock.scope esp8266Port ⟨⟨false, []⟩⟩ 100 = some (false, m3)
        ∧ m3.unlockCalls = 0)
    ∧ Mutex.lock esp8266Port Mutex.ctor 100 = some (true, ⟨⟨false, [SemCall.take 10]⟩⟩)
    ∧ (∃ m3, MutexLock.scope esp8266Port Mutex.ctor 100 = some (true, m3)
        ∧ m3.unlockCalls = 1)
    ∧ MutexLockFromISR.scope ⟨⟨false, []⟩⟩ = (false, ⟨⟨false, [SemCall.takeFromISR]⟩⟩)
    ∧ MutexLockFromISR.scope Mutex.ctor
        = (true, ⟨⟨true, [SemCall.takeFromISR, SemCall.giveFromISR]⟩⟩) := by
  refine ⟨rfl, ?_, rfl, ?_, rfl, rfl⟩
  · obtain ⟨_, m3, h1, h2, _⟩ :=
      (guard_unlocks_iff_acquired esp8266Port ⟨⟨false, []⟩⟩ 100).1 false _ rfl
    exact ⟨m3, h1, by simpa [Mutex.unlockCalls] using h2⟩
  · obtain ⟨_, m3, h1, h2, _⟩ :=
      (guard_unlocks_iff_acquired esp8266Port Mutex.ctor 100).1 true _ rfl
    exact ⟨m3, h1, by simpa [Mutex.unlockCalls, Mutex.ctor, vSemaphoreCreateBinary] using h2⟩

/-! ## A full queue, the sentinel of `read()`/`peek()`, and `waitForData` -/

theorem msToTicks_zero (cfg : PortConfig) : msToTicks cfg 0 = 0 := by
  simp [msToTicks]

/-- C4: on a queue of capacity `C ≥ 1` that holds `C` elements, `send` with time-out 0 and
`sendFromISR` both return `false` and leave the queue as it is, with `available()` equal
to `C`; `HardwareSerial::put` on a full receive queue leaves the port as it is. A
`receive` on the full queue succeeds, and after it a `send` with time-out 0 returns
`true` and appends the element, which brings `available()` back to `C`. -/
theorem full_queue_rejects_send {α : Type} (cfg : PortConfig) (q : Queue α) (item : α)
    (hC : 1 ≤ q.capacity) (hC32 : q.capacity < UINT32_MOD)
    (hfull : q.items.length = q.capacity) :
    q.send cfg item 0 = some (false, q)
    ∧ q.sendFromISR item = (false, q)
    ∧ q.available = q.capacity
    ∧ (∀ (h : HardwareSerial) (value : uint8_t),
        h.m_queue.items.length = h.m_queue.capacity → h.put value = h)
    ∧ ∃ x q1, (∀ msTimeOut, q.receive cfg msTimeOut = some (some x, q1))
        ∧ x :: q1.items = q.items
        ∧ q1.available = q.capacity - 1
        ∧ ∃ q2, q1.send cfg item 0 = some (true, q2)
            ∧ q2.items = q1.items ++ [item]
            ∧ q2.available = q.capacity := by
  obtain ⟨⟨C, items⟩⟩ := q
  simp only [Queue.capacity, Queue.items] at hC hC32 hfull
  refine ⟨?_, ?_, ?_, ?_, ?_⟩
  · simp [Queue.send, xQueueSend, msToTicks_zero, hfull]
  · simp [Queue.sendFromISR, xQueueSendFromISR, hfull]
  · simp only [Queue.available, uxQueueMessagesWaiting, Queue.capacity, hfull]
    exact Nat.mod_eq_of_lt hC32
  · rintro ⟨⟨⟨C', items'⟩⟩⟩ value hf
    simp only [Queue.capacity, Queue.items] at hf
    simp [HardwareSerial.put, Queue.sendFromISR, xQueueSendFromISR, hf]
  · cases items with
    | nil => simp at hfull; omega
    | cons x rest =>
      simp only [List.length_cons] at hfull
      refine ⟨x, ⟨⟨C, rest⟩⟩, ?_, rfl, ?_, ⟨⟨C, rest ++ [item]⟩⟩, ?_, rfl, ?_⟩
      · intro msTimeOut
        simp [Queue.receive, xQueueReceive]
      · simp only [Queue.available, uxQueueMessagesWaiting, Queue.capacity]
        rw [Nat.mod_eq_of_lt (by omega)]
        omega
      · have : rest.length < C := by omega
        simp [Queue.send, xQueueSend, this]
      · simp only [Queue.available, uxQueueMessagesWaiting, Queue.capacity, List.length_append,
          List.length_singleton, hfull]
        exact Nat.mod_eq_of_lt hC32

/-- A queue of capacity 2 holding 5 and 6: a third element is refused by both sends; once
5 has been received, 7 is accepted behind 6. -/
theorem full_queue_rejects_send_witness :
    (1 ≤ (⟨⟨2, [5, 6]⟩⟩ : Queue Nat).capacity
      ∧ (⟨⟨2, [5, 6]⟩⟩ : Queue Nat).capacity < UINT32_MOD
      ∧ (⟨⟨2, [5, 6]⟩⟩ : Queue Nat).items.length = (⟨⟨2, [5, 6]⟩⟩ : Queue Nat).capacity)
    ∧ Queue.send esp8266Port (⟨⟨2, [5, 6]⟩⟩ : Queue Nat) 7 0 = some (false, ⟨⟨2, [5, 6]⟩⟩)
    ∧ Queue.sendFromISR (⟨⟨2, [5, 6]⟩⟩ : Queue Nat) 7 = (false, ⟨⟨2, [5, 6]⟩⟩)
    ∧ Queue.receive esp8266Port (⟨⟨2, [5, 6]⟩⟩ : Queue Nat) 0 = some (some 5, ⟨⟨2, [6]⟩⟩)
    ∧ Queue.send esp8266Port (⟨⟨2, [6]⟩⟩ : Queue Nat) 7 0 = some (true, ⟨⟨2, [6, 7]⟩⟩) :=
  ⟨⟨by decide, by decide, by decide⟩,
    (full_queue_rejects_send esp8266Port ⟨⟨2, [5, 6]⟩⟩ 7 (by decide) (by decide) (by decide)).1,
    (full_queue_rejects_send esp8266Port ⟨⟨2, [5, 6]⟩⟩ 7 (by decide) (by decide) (by decide)).2.1,
    rfl, rfl⟩

/-- C6: `read()` and `peek()` of a `HardwareSerial` always return, with the same value `c`;
`c = -1` exactly when the receive queue is empty, and then neither changes the port;
otherwise `c` is the head byte as a number in 0..255 (so `c` is negative only for the
empty queue), `read()` leaves the tail of the queue and `peek()` leaves the port as it
is. -/
theorem read_peek_sentinel (cfg : PortConfig) (h : HardwareSerial) :
    ∃ c h1, h.read cfg = some (c, h1)
      ∧ h.peek cfg = some (c, h)
      ∧ (c = -1 ↔ h.m_queue.items = [])
      ∧ (c < 0 ↔ h.m_queue.items = [])
      ∧ (h.m_queue.items = [] → h1 = h)
      ∧ (∀ b rest, h.m_queue.items = b :: rest →
          c = (b.val : Int) ∧ 0 ≤ c ∧ c ≤ 255 ∧ h1.m_queue.items = rest
            ∧ h1.m_queue.capacity = h.m_queue.capacity) := by
  obtain ⟨⟨⟨C, items⟩⟩⟩ := h
  cases items with
  | nil =>
    refine ⟨-1, ⟨⟨⟨C, []⟩⟩⟩, ?_, ?_, ?_, ?_, ?_, ?_⟩
    · simp [HardwareSerial.read, Queue.receive, xQueueReceive, msToTicks_zero]
    · simp [HardwareSerial.peek, Queue.peek, xQueuePeek, msToTicks_zero]
    · simp [Queue.items]
    · simp [Queue.items]
    · intro _; rfl
    · intro b rest hb; simp [Queue.items] at hb
  | cons x rest =>
    have hx := x.isLt
    refine ⟨(x.val : Int), ⟨⟨⟨C, rest⟩⟩⟩, ?_, ?_, ?_, ?_, ?_, ?_⟩
    · simp [HardwareSerial.read, Queue.receive, xQueueReceive]
    · simp [HardwareSerial.peek, Queue.peek, xQueuePeek]
    · exact ⟨fun hc => by omega, fun hc => by simp [Queue.items] at hc⟩
    · exact ⟨fun hc => by omega, fun hc => by simp [Queue.items] at hc⟩
    · intro hc; simp [Queue.items] at hc
    · intro b rest' hb
      simp only [Queue.items, List.cons.injEq] at hb
      obtain ⟨rfl, rfl⟩ := hb
      refine ⟨rfl, by omega, by omega, rfl, rfl⟩

/-- The byte 0xFF at the head of the queue is read and peeked as 255, not as -1; on the
empty queue both return -1. -/
theorem read_peek_sentinel_witness :
    HardwareSerial.read esp8266Port ⟨⟨⟨4, [255, 128]⟩⟩⟩ = some (255, ⟨⟨⟨4, [128]⟩⟩⟩)
    ∧ HardwareSerial.peek esp8266Port ⟨⟨⟨4, [255, 128]⟩⟩⟩ = some (255, ⟨⟨⟨4, [255, 128]⟩⟩⟩)
    ∧ HardwareSerial.read esp8266Port ⟨⟨⟨4, []⟩⟩⟩ = some (-1, ⟨⟨⟨4, []⟩⟩⟩)
    ∧ HardwareSerial.peek esp8266Port ⟨⟨⟨4, []⟩⟩⟩ = some (-1, ⟨⟨⟨4, []⟩⟩⟩) := by
  obtain ⟨c, h1, hr, hp, _, _, _, hb⟩ := read_peek_sentinel esp8266Port ⟨⟨⟨4, [255, 128]⟩⟩⟩
  obtain ⟨hc, _⟩ := hb 255 [128] rfl
  subst hc
  exact ⟨rfl, hp, rfl, rfl⟩

/-- C10: when the receive queue holds at least one byte, `waitForData` returns `true` for
every time-out and leaves the port as it is: `available()` is the same, and the next
`read()` returns the byte that was at the head before the call. -/
theorem waitForData_keeps_queue (cfg : PortConfig) (h : HardwareSerial) (timeOutMs : Nat)
    (b : uint8_t) (rest : List uint8_t) (hq : h.m_queue.items = b :: rest) :
    ∃ h1, h.waitForData cfg timeOutMs = some (true, h1)
      ∧ h1 = h
      ∧ h1.available = h.available
      ∧ h1.m_queue.items = b :: rest
      ∧ ∃ h2, h1.read cfg = some ((b.val : Int), h2) ∧ h2.m_queue.items = rest := by
  obtain ⟨⟨⟨C, items⟩⟩⟩ := h
  simp only [Queue.items] at hq
  subst hq
  refine ⟨⟨⟨⟨C, b :: rest⟩⟩⟩, ?_, rfl, rfl, rfl, ⟨⟨⟨C, rest⟩⟩⟩, ?_, rfl⟩
  · simp [HardwareSerial.waitForData, Queue.peek, xQueuePeek]
  · simp [HardwareSerial.read, Queue.receive, xQueueReceive]

/-- A queue holding 65 and 66: `waitForData` with the default time-out and with time-out 0
returns `true` and changes nothing. -/
theorem waitForData_keeps_queue_witness :
    (⟨⟨⟨4, [65, 66]⟩⟩⟩ : HardwareSerial).m_queue.items = 65 :: [66]
    ∧ HardwareSerial.waitForData esp8266Port ⟨⟨⟨4, [65, 66]⟩⟩⟩ (defaultTimeOut esp8266Port)
        = some (true, ⟨⟨⟨4, [65, 66]⟩⟩⟩)
    ∧ HardwareSerial.waitForData oneMsPort ⟨⟨⟨4, [65, 66]⟩⟩⟩ (defaultTimeOut oneMsPort)
        = some (true, ⟨⟨⟨4, [65, 66]⟩⟩⟩)
    ∧ HardwareSerial.waitForData esp8266Port ⟨⟨⟨4, [65, 66]⟩⟩⟩ 0
        = some (true, ⟨⟨⟨4, [65, 66]⟩⟩⟩) := by
  refine ⟨rfl, ?_, ?_, ?_⟩
  · obtain ⟨h1, hw, rfl, _⟩ := waitForData_keeps_queue esp8266Port ⟨⟨⟨4, [65, 66]⟩⟩⟩
      (defaultTimeOut esp8266Port) 65 [66] rfl
    exact hw
  · obtain ⟨h1, hw, rfl, _⟩ := waitForData_keeps_queue oneMsPort ⟨⟨⟨4, [65, 66]⟩⟩⟩
      (defaultTimeOut oneMsPort) 65 [66] rfl
    exact hw
  · obtain ⟨h1, hw, rfl, _⟩ := waitForData_keeps_queue esp8266Port ⟨⟨⟨4, [65, 66]⟩⟩⟩
      0 65 [66] rfl
    exact hw

/-! ## The queue hands elements back in the order they entered -/

theorem queue_step_fifo {α : Type} (cfg : PortConfig) (base : List α) (r r1 : QueueRun α)
    (op : QueueOp α) (hs : Queue.step cfg r op = some r1)
    (hinv : r.received ++ r.queue.items = base ++ r.sent) :
    r1.received ++ r1.queue.items = base ++ r1.sent := by
  obtain ⟨⟨⟨C, items⟩⟩, sent, received⟩ := r
  simp only [Queue.items] at hinv
  cases op with
  | send item msTimeOut =>
    simp only [Queue.step, Queue.send, xQueueSend] at hs
    split_ifs at hs <;> simp at hs <;> subst hs <;>
      simp [Queue.items, hinv, ← List.append_assoc]
  | sendFromISR item =>
    simp only [Queue.step, Queue.sendFromISR, xQueueSendFromISR] at hs
    split_ifs at hs <;> simp at hs <;> subst hs <;>
      simp [Queue.items, hinv, ← List.append_assoc]
  | receive msTimeOut =>
    cases items with
    | nil =>
      simp only [Queue.step, Queue.receive, xQueueReceive] at hs
      split_ifs at hs <;> simp at hs <;> subst hs <;> simp [Queue.items, hinv]
    | cons x rest =>
      simp only [Queue.step, Queue.receive, xQueueReceive] at hs
      simp at hs
      subst hs
      simpa [Queue.items] using hinv

theorem queue_run_fifo {α : Type} (cfg : PortConfig) (base : List α) (ops : List (QueueOp α)) :
    ∀ (r r1 : QueueRun α), Queue.run cfg ops r = some r1 →
      r.received ++ r.queue.items = base ++ r.sent →
      r1.received ++ r1.queue.items = base ++ r1.sent := by
  induction ops with
  | nil =>
    intro r r1 h hinv
    simp only [Queue.run, Option.some.injEq] at h
    subst h; exact hinv
  | cons op ops ih =>
    intro r r1 h hinv
    simp only [Queue.run] at h
    cases hs : Queue.step cfg r op with
    | none => simp [hs] at h
    | some r2 =>
      simp only [hs] at h
      exact ih r2 r1 h (queue_step_fifo cfg base r r2 op hs hinv)

theorem queue_step_immediate {α : Type} (cfg : PortConfig) (r : QueueRun α) (op : QueueOp α)
    (hop : op.immediate = true) : ∃ r1, Queue.step cfg r op = some r1 := by
  obtain ⟨⟨⟨C, items⟩⟩, sent, received⟩ := r
  cases op with
  | send item msTimeOut =>
    simp only [QueueOp.immediate, decide_eq_true_eq] at hop
    subst hop
    simp only [Queue.step, Queue.send, xQueueSend, msToTicks, Nat.zero_div]
    split_ifs <;> simp
  | sendFromISR item =>
    simp only [Queue.step, Queue.sendFromISR, xQueueSendFromISR]
    split_ifs <;> simp
  | receive msTimeOut =>
    simp only [QueueOp.immediate, decide_eq_true_eq] at hop
    subst hop
    cases items <;> simp [Queue.step, Queue.receive, xQueueReceive, msToTicks]

theorem queue_run_immediate {α : Type} (cfg : PortConfig) (ops : List (QueueOp α)) :
    ∀ (r : QueueRun α), (∀ op ∈ ops, op.immediate = true) → ∃ r1, Queue.run cfg ops r = some r1 := by
  induction ops with
  | nil => intro r _; exact ⟨r, rfl⟩
  | cons op ops ih =>
    intro r h
    obtain ⟨r2, h2⟩ := queue_step_immediate cfg r op (h op (List.mem_cons_self _ _))
    obtain ⟨r1, h1⟩ := ih r2 (fun o ho => h o (List.mem_cons_of_mem _ ho))
    exact ⟨r1, by simp [Queue.run, h2, h1]⟩

theorem serial_step_fifo (cfg : PortConfig) (base : List uint8_t) (r : SerialRun) (op : SerialOp)
    (hinv : r.reads ++ r.serial.m_queue.items.map (fun b => (b.val : Int))
      = (base ++ r.delivered).map (fun b => (b.val : Int))) :
    ∃ r1, HardwareSerial.step cfg r op = some r1
      ∧ r1.reads ++ r1.serial.m_queue.items.map (fun b => (b.val : Int))
        = (base ++ r1.delivered).map (fun b => (b.val : Int)) := by
  obtain ⟨⟨⟨⟨C, items⟩⟩⟩, delivered, reads⟩ := r
  simp only [Queue.items] at hinv
  cases op with
  | put value =>
    simp only [HardwareSerial.step, HardwareSerial.put, Queue.sendFromISR, xQueueSendFromISR,
      Queue.items, Queue.capacity]
    split_ifs
    · refine ⟨_, rfl, ?_⟩
      simp only [Queue.items, List.map_append, ← List.append_assoc, hinv]
    · exact ⟨_, rfl, by simpa [Queue.items] using hinv⟩
  | read =>
    cases items with
    | nil =>
      refine ⟨⟨⟨⟨⟨C, []⟩⟩⟩, delivered, reads⟩, ?_, by simpa [Queue.items] using hinv⟩
      simp [HardwareSerial.step, HardwareSerial.read, Queue.receive, xQueueReceive, msToTicks]
    | cons x rest =>
      have hx : ((x.val : Nat) : Int) > -1 := by omega
      refine ⟨⟨⟨⟨⟨C, rest⟩⟩⟩, delivered, reads ++ [(x.val : Int)]⟩, ?_, ?_⟩
      · simp [HardwareSerial.step, HardwareSerial.read, Queue.receive, xQueueReceive, hx]
      · simpa [Queue.items] using hinv

theorem serial_run_fifo (cfg : PortConfig) (base : List uint8_t) (ops : List SerialOp) :
    ∀ (r : SerialRun),
      r.reads ++ r.serial.m_queue.items.map (fun b => (b.val : Int))
        = (base ++ r.delivered).map (fun b => (b.val : Int)) →
      ∃ r1, HardwareSerial.run cfg ops r = some r1
        ∧ r1.reads ++ r1.serial.m_queue.items.map (fun b => (b.val : Int))
          = (base ++ r1.delivered).map (fun b => (b.val : Int)) := by
  induction ops with
  | nil => intro r hinv; exact ⟨r, rfl, hinv⟩
  | cons op ops ih =>
    intro r hinv
    obtain ⟨r2, h2, hinv2⟩ := serial_step_fifo cfg base r op hinv
    obtain ⟨r1, h1, hinv1⟩ := ih r2 hinv2
    exact ⟨r1, by simp [HardwareSerial.run, h2, h1], hinv1⟩

/-- C5: run any sequence of `send`, `sendFromISR` and `receive` calls on a queue `q`. If
every call returns, the elements handed back by the successful `receive` calls, followed
by the elements still queued, are the elements `q` held at the start followed by the
elements whose send returned `true`, in the order of those sends: elements leave in the
order they entered. A run of calls that cannot suspend (`sendFromISR`, time-out 0) always
returns. On a `HardwareSerial`, every run of `put` and `read()` calls returns, and the
non-negative results of `read()`, followed by the bytes still queued, are the bytes queued
at the start followed by the bytes `put` while the queue had room. -/
theorem queue_is_fifo {α : Type} (cfg : PortConfig) (q : Queue α) (ops : List (QueueOp α))
    (r : QueueRun α) (hrun : Queue.run cfg ops ⟨q, [], []⟩ = some r) :
    r.received ++ r.queue.items = q.items ++ r.sent
    ∧ (∀ (ops1 : List (QueueOp α)), (∀ op ∈ ops1, op.immediate = true) →
        ∃ r1, Queue.run cfg ops1 ⟨q, [], []⟩ = some r1)
    ∧ (∀ (h : HardwareSerial) (sops : List SerialOp),
        ∃ r1, HardwareSerial.run cfg sops ⟨h, [], []⟩ = some r1
          ∧ r1.reads ++ r1.serial.m_queue.items.map (fun b => (b.val : Int))
            = (h.m_queue.items ++ r1.delivered).map (fun b => (b.val : Int))) := by
  refine ⟨?_, ?_, ?_⟩
  · exact queue_run_fifo cfg q.items ops ⟨q, [], []⟩ r hrun (by simp)
  · intro ops1 h1
    exact queue_run_immediate cfg ops1 ⟨q, [], []⟩ h1
  · intro h sops
    exact serial_run_fifo cfg h.m_queue.items sops ⟨h, [], []⟩ (by simp)

/-- A queue of capacity 3 that holds 9: the sends of 1 and 2 succeed, the send of 3 finds
the queue full, a receive returns 9, the send of 4 succeeds and a receive returns 1;
the elements 2 and 4 stay queued, in this order. -/
theorem queue_is_fifo_witness :
    Queue.run esp8266Port
        [QueueOp.send 1 0, QueueOp.sendFromISR 2, QueueOp.send 3 0, QueueOp.receive 0,
          QueueOp.sendFromISR 4, QueueOp.receive 50]
        ⟨⟨⟨3, [9]⟩⟩, [], []⟩
      = some ⟨⟨⟨3, [2, 4]⟩⟩, [1, 2, 4], [9, 1]⟩
    ∧ ([9, 1] : List Nat) ++ (⟨⟨3, [2, 4]⟩⟩ : Queue Nat).items
        = (⟨⟨3, [9]⟩⟩ : Queue Nat).items ++ [1, 2, 4] :=
  ⟨rfl, (queue_is_fifo esp8266Port ⟨⟨3, [9]⟩⟩
      [QueueOp.send 1 0, QueueOp.sendFromISR 2, QueueOp.send 3 0, QueueOp.receive 0,
        QueueOp.sendFromISR 4, QueueOp.receive 50]
      ⟨⟨⟨3, [2, 4]⟩⟩, [1, 2, 4], [9, 1]⟩ rfl).1⟩

/-! ## Time-outs -/

theorem default_timeout_ticks (cfg : PortConfig) (hmax : 0 < cfg.portMAX_DELAY)
    (h32 : cfg.portMAX_DELAY < UINT32_MOD) :
    msToTicks cfg (defaultTimeOut cfg) = cfg.portMAX_DELAY ↔ cfg.portTICK_RATE_MS = 1 := by
  have hd : defaultTimeOut cfg = cfg.portMAX_DELAY := Nat.mod_eq_of_lt h32
  simp only [msToTicks, hd]
  constructor
  · intro h
    by_contra h1
    have h2 : 1 < cfg.portTICK_RATE_MS := by
      have := cfg.tick_pos
      omega
    have := Nat.div_lt_self hmax h2
    omega
  · intro h
    rw [h, Nat.div_one]

/-- C7: on the ESP8266 port (tick period 10 ms, `portMAX_DELAY` = 0xFFFFFFFF) the default
time-out of `Mutex::lock` reaches `xSemaphoreTake` as 429496729 ticks, which is not
`portMAX_DELAY`: on a held mutex the call gives up and returns `false`, and
`waitForData` with its default time-out on an empty queue returns `false`. With a tick
period of 1 ms the tick count is `portMAX_DELAY` and the same calls wait for ever. -/
theorem default_timeout_ticks_esp8266 :
    msToTicks esp8266Port (defaultTimeOut esp8266Port) = 429496729
    ∧ msToTicks esp8266Port (defaultTimeOut esp8266Port) ≠ esp8266Port.portMAX_DELAY
    ∧ Mutex.lock esp8266Port ⟨⟨false, []⟩⟩ (defaultTimeOut esp8266Port)
        = some (false, ⟨⟨false, [SemCall.take 429496729]⟩⟩)
    ∧ HardwareSerial.waitForData esp8266Port (HardwareSerial.ctor 128)
          (defaultTimeOut esp8266Port)
        = some (false, HardwareSerial.ctor 128)
    ∧ msToTicks oneMsPort (defaultTimeOut oneMsPort) = oneMsPort.portMAX_DELAY
    ∧ Mutex.lock oneMsPort ⟨⟨false, []⟩⟩ (defaultTimeOut oneMsPort) = none
    ∧ HardwareSerial.waitForData oneMsPort (HardwareSerial.ctor 128) (defaultTimeOut oneMsPort)
        = none := by
  refine ⟨by decide, by decide, by decide, by decide, by decide, by decide, by decide⟩

/-- C8: a `SoftTimeOut` built with duration `d` when `millis()` is `s` converts to `true`
when `millis()` is `t` exactly if `millisDiff(s, t) > d`, whatever `millisDiff` computes;
it is `false` when `millisDiff(s, t)` equals `d`. `reset(d1)` run when `millis()` is `s1`
stores `d1` as the duration and `s1` as the start, whatever was stored before, and from
then on the object is `true` exactly if `millisDiff(s1, t) > d1`. -/
theorem softTimeOut_expired_iff (md : Nat → Nat → Nat) (d s t : Nat) :
    (SoftTimeOut.toBool md (SoftTimeOut.ctor d s) t = true ↔ md s t > d)
    ∧ (md s t = d → SoftTimeOut.toBool md (SoftTimeOut.ctor d s) t = false)
    ∧ (∀ (x : SoftTimeOut) (d1 s1 : Nat),
        (x.reset d1 s1).m_timeOut = d1
        ∧ (x.reset d1 s1).m_startTime = s1
        ∧ x.reset d1 s1 = SoftTimeOut.ctor d1 s1
        ∧ (SoftTimeOut.toBool md (x.reset d1 s1) t = true ↔ md s1 t > d1)) := by
  refine ⟨by simp [SoftTimeOut.toBool, SoftTimeOut.ctor], ?_, ?_⟩
  · intro h
    simp [SoftTimeOut.toBool, SoftTimeOut.ctor, h]
  · intro x d1 s1
    exact ⟨rfl, rfl, rfl, by simp [SoftTimeOut.toBool, SoftTimeOut.reset]⟩

/-- A time-out of 32 ms started at 0xFFFFFFF0, with the `millisDiff` of the specification:
still `false` at 0x10, when 32 ms have passed, and `true` at 0x11. -/
theorem softTimeOut_expired_iff_witness :
    SoftTimeOut.toBool millisDiff (SoftTimeOut.ctor 32 4294967280) 16 = false
    ∧ SoftTimeOut.toBool millisDiff (SoftTimeOut.ctor 32 4294967280) 17 = true :=
  ⟨(softTimeOut_expired_iff millisDiff 32 4294967280 16).2.1 (by decide),
    (softTimeOut_expired_iff millisDiff 32 4294967280 17).1.mpr (by decide)⟩

/-- C9: `millisDiff(0xFFFFFFF0, 0x00000010)` is 32, and for all 32-bit `t1` and `t2`,
`millisDiff(t1, t2)` is `(t2 - t1) mod 2^32`: a 32-bit value which, added to `t1` in
32-bit arithmetic, gives `t2`. -/
theorem millisDiff_forward_distance (t1 t2 : Nat) (h1 : t1 < UINT32_MOD) (h2 : t2 < UINT32_MOD) :
    millisDiff 4294967280 16 = 32
    ∧ (millisDiff t1 t2 : Int) = ((t2 : Int) - (t1 : Int)) % 4294967296
    ∧ millisDiff t1 t2 < UINT32_MOD
    ∧ (t1 + millisDiff t1 t2) % UINT32_MOD = t2 := by
  simp only [UINT32_MOD] at h1 h2
  refine ⟨by decide, ?_, ?_, ?_⟩
  · unfold millisDiff UINT32_MOD
    split_ifs <;> omega
  · unfold millisDiff UINT32_MOD
    split_ifs <;> omega
  · unfold millisDiff UINT32_MOD
    split_ifs <;> omega

/-- The distance from 0xFFFFFFF0 forward to 0x10 across the wrap of the counter. -/
theorem millisDiff_forward_distance_witness :
    (4294967280 < UINT32_MOD ∧ 16 < UINT32_MOD)
    ∧ millisDiff 4294967280 16 = 32
    ∧ (4294967280 + millisDiff 4294967280 16) % UINT32_MOD = 16 :=
  ⟨⟨by decide, by decide⟩,
    (millisDiff_forward_distance 4294967280 16 (by decide) (by decide)).1,
    (millisDiff_forward_distance 4294967280 16 (by decide) (by decide)).2.2.2⟩

end fdv
